import Mathlib

/-
Verification of the static discovery engine in
`packages/adaptive-tests-py/src/adaptive_tests_py/discovery.py`.

The Python module is shallowly embedded below.  Conventions:
- Python `float` scores are modelled as exact rationals (`ℚ`); every score
  constant in the source (0.7, 0.3, 0.05, ...) is a small decimal fraction.
- Python strings are Lean `String`s; `str.lower`, `in`, `startswith`,
  `endswith` and list slicing are modelled by the explicit helpers below,
  which operate on the character lists of the strings (faithful for the
  exact-codepoint comparisons the source performs).
- `re.search(pattern, s, flags)` is passed to the scorer as an explicit
  search function `rs : String → String → Bool → Bool` (pattern, subject,
  ignore-case).  `literalSearch` instantiates it for metacharacter-free
  patterns, where `re.search` is exactly substring containment and
  `re.IGNORECASE` is case-folded substring containment.
- Side-effecting parts (`sys.path` manipulation in `DiscoveryResult.load`,
  file reads in `_extract_candidates`) are modelled by explicit state
  passing / outcome parameters.
-/

/-- Models Python `str.lower()` (per-character lowercasing, faithful for the
ASCII identifiers and fragments the engine compares). -/
def pyLower (s : String) : String :=
  String.mk (s.toList.map Char.toLower)

/-- Helper for `pyIn`: is `needle` an infix of `hay` (as character lists)? -/
def listHasInfix (needle : List Char) : List Char → Bool
  | [] => needle.isEmpty
  | h :: t => needle.isPrefixOf (h :: t) || listHasInfix needle t

/-- Models Python `needle in hay` for strings (substring containment). -/
def pyIn (needle hay : String) : Bool :=
  listHasInfix needle.toList hay.toList

/-- Models Python `s.startswith(pre)`. -/
def pyStartsWith (s pre : String) : Bool :=
  pre.toList.isPrefixOf s.toList

/-- Models Python `s.endswith(suf)`. -/
def pyEndsWith (s suf : String) : Bool :=
  suf.toList.isSuffixOf s.toList

/-- Models the Python slice `s[:-n]` (drop the last `n` characters; the whole
string shrinks to `""` when `n ≥ len(s)`, exactly as in Python). -/
def pySliceDropRight (s : String) (n : Nat) : String :=
  String.mk (s.toList.take (s.toList.length - n))

/-- Models `pathlib.PurePath.stem` for a single path component `nm`
(CPython: `i = name.rfind('.'); return name[:i] if 0 < i < len(name) - 1
else name`). -/
def pathStem (nm : String) : String :=
  let l := nm.toList
  match ((l.enum.filter (fun p => p.2 = '.')).getLast?).map (fun p => p.1) with
  | some i => if 0 < i ∧ i < l.length - 1 then String.mk (l.take i) else nm
  | none => nm

/-- Models Python `'.'.join(parts)`. -/
def joinDots : List String → String
  | [] => ""
  | [x] => x
  | x :: y :: t => x ++ "." ++ joinDots (y :: t)

/-- The query record (`Signature` dataclass).  `__post_init__` freezes the
four sequence fields with `tuple(... or ())`: order and duplicates are
preserved, which is why they are `List String` here and not finsets.
`module`/`module_pattern` are `Optional[str]`. -/
structure Signature where
  name : String
  type : String
  methods : List String
  module : Option String
  module_pattern : Option String
  decorators : List String
  bases : List String
  docstring_contains : List String
  regex : Bool
  case_sensitive : Bool
deriving Repr, DecidableEq

/-- The extractor output record (`_Candidate` dataclass).  `file_path` is
modelled as its list of path components. -/
structure Candidate where
  name : String
  type : String
  module : String
  filePath : List String
  lineno : Nat
  methods : List String
  decorators : List String
  bases : List String
  docstring : Option String
deriving Repr, DecidableEq

/-- `DiscoveryResult`: a candidate plus its computed score and the engine
root (scores as exact rationals). -/
structure DiscoveryResult where
  name : String
  type : String
  module : String
  filePath : List String
  lineno : Nat
  methods : List String
  decorators : List String
  bases : List String
  docstring : Option String
  score : ℚ
  root : String
deriving Repr, DecidableEq

/-- `DiscoveryEngine._type_matches`: `any`/`*` match everything, `class`
matches only `class`, `function` matches `function` and `async_function`,
anything else by string equality; an empty requested type defaults to
`class` (`requested or "class"`). -/
def type_matches (requested actual : String) : Bool :=
  let requested := pyLower (if requested = "" then "class" else requested)
  let actual := pyLower actual
  if requested = "any" ∨ requested = "*" then true
  else if requested = "class" then actual = "class"
  else if requested = "function" then actual = "function" ∨ actual = "async_function"
  else requested = actual

/-- `DiscoveryEngine._name_score`.  `rs pat subj ic` models
`re.search(pat, subj)` compiled with `re.IGNORECASE` iff `ic`. -/
def name_score (rs : String → String → Bool → Bool) (candidate_name : String)
    (s : Signature) : ℚ :=
  if s.regex then
    (if rs s.name candidate_name (!s.case_sensitive) then 3/5 else 0)
  else
    let candidate := if s.case_sensitive then candidate_name else pyLower candidate_name
    let target := if s.case_sensitive then s.name else pyLower s.name
    if candidate = target then 7/10
    else if pyStartsWith candidate target then 1/2
    else if pyEndsWith candidate target then 2/5
    else if pyIn target candidate then 3/10
    else 0

/-- The `signature.methods` block of `_score_candidate`.  `none` models the
early `return 0.0`.  `matches` counts tuple entries (duplicates included),
exactly like the source's `sum(1 for method in signature.methods if method
in candidate.methods)`. -/
def methodsStep (c : Candidate) (s : Signature) (score : ℚ) : Option ℚ :=
  if s.methods = [] then some score
  else
    let mcount := s.methods.countP (fun m => c.methods.contains m)
    if mcount ≠ s.methods.length then
      let ratio : ℚ := (mcount : ℚ) / (s.methods.length : ℚ)
      if ratio < 1/2 then none else some (score + 2/10 * ratio)
    else some (score + 3/10)

/-- The `signature.decorators` block of `_score_candidate`. -/
def decoratorsStep (c : Candidate) (s : Signature) (score : ℚ) : Option ℚ :=
  if s.decorators = [] then some score
  else
    let deco_matches := s.decorators.countP (fun d => c.decorators.contains d)
    if deco_matches ≠ s.decorators.length then none else some (score + 5/100)

/-- The `signature.bases` block of `_score_candidate`. -/
def basesStep (c : Candidate) (s : Signature) (score : ℚ) : Option ℚ :=
  if s.bases = [] then some score
  else
    let base_matches := s.bases.countP (fun b => c.bases.contains b)
    if base_matches ≠ s.bases.length then none else some (score + 1/10)

/-- The `signature.docstring_contains` block of `_score_candidate` (never
disqualifies; +0.02 per fragment found, duplicates counted separately). -/
def docstringStep (c : Candidate) (s : Signature) (score : ℚ) : Option ℚ :=
  if s.docstring_contains = [] then some score
  else
    let docstring := pyLower (c.docstring.getD "")
    let doc_matches := s.docstring_contains.countP (fun f => pyIn (pyLower f) docstring)
    some (score + 2/100 * (doc_matches : ℚ))

/-- The `signature.module` / `signature.module_pattern` block of
`_score_candidate` (`if signature.module: ... elif signature.module_pattern:`
with Python truthiness on the optional strings). -/
def moduleStep (rs : String → String → Bool → Bool) (c : Candidate)
    (s : Signature) (score : ℚ) : Option ℚ :=
  if s.module.getD "" ≠ "" then
    (if c.module ≠ s.module.getD "" then none else some (score + 1/10))
  else if s.module_pattern.getD "" ≠ "" then
    (if rs (s.module_pattern.getD "") c.module false = false then none
     else some (score + 5/100))
  else some score

/-- The file-stem bonus at the end of `_score_candidate`
(`candidate.file_path.stem.lower() == signature.name.lower()` → +0.02). -/
def stemStep (c : Candidate) (s : Signature) (score : ℚ) : ℚ :=
  if pyLower (pathStem ((c.filePath.getLast?).getD "")) = pyLower s.name then
    score + 2/100
  else score

/-- The disqualifier chain after the methods block (decorators, bases,
docstring, module), in source order. -/
def qualifiers (rs : String → String → Bool → Bool) (c : Candidate)
    (s : Signature) (score : ℚ) : Option ℚ :=
  Option.bind
    (Option.bind (Option.bind (decoratorsStep c s score) (basesStep c s))
      (docstringStep c s))
    (moduleStep rs c s)

/-- `DiscoveryEngine._score_candidate`: early `return 0.0`s are the `none`
branches of the step chain. -/
def score_candidate (rs : String → String → Bool → Bool) (c : Candidate)
    (s : Signature) : ℚ :=
  if type_matches s.type c.type = false then 0
  else
    let ns := name_score rs c.name s
    if ns = 0 then 0
    else
      match Option.bind (methodsStep c s ns) (qualifiers rs c s) with
      | none => 0
      | some sc => stemStep c s sc

/-- `re.search` restricted to metacharacter-free patterns: a hit is exactly
substring containment, and `re.IGNORECASE` is containment after
case-folding both sides. -/
def literalSearch (pattern subject : String) (ignoreCase : Bool) : Bool :=
  if ignoreCase then pyIn (pyLower pattern) (pyLower subject)
  else pyIn pattern subject

/-- `DiscoveryEngine._match_candidates` applied to an already-extracted
candidate stream: score each candidate, keep the positive ones
(`if score <= 0: continue`), wrap into `DiscoveryResult`s with the engine
root, preserving encounter order. -/
def match_candidates (rs : String → String → Bool → Bool) (root : String)
    (cands : List Candidate) (s : Signature) : List DiscoveryResult :=
  cands.filterMap (fun c =>
    let score := score_candidate rs c s
    if score ≤ 0 then none
    else some
      { name := c.name
        type := c.type
        module := c.module
        filePath := c.filePath
        lineno := c.lineno
        methods := c.methods
        decorators := c.decorators
        bases := c.bases
        docstring := c.docstring
        score := score
        root := root })

/-- Stable insertion used to model Python's stable `sorted(..., key=lambda
c: c.score, reverse=True)`: `x` is placed before the first element whose
score is `≤ x.score`, i.e. after every strictly-greater element and before
every previously-seen element of equal score. -/
def insertDesc (x : DiscoveryResult) : List DiscoveryResult → List DiscoveryResult
  | [] => [x]
  | y :: ys => if y.score ≤ x.score then x :: y :: ys else y :: insertDesc x ys

/-- Stable descending sort by score.  Python's `sorted` (timsort) is stable;
a stable sort's output is uniquely determined by the key order and input
order, so this insertion sort computes the same list. -/
def sortScoreDesc : List DiscoveryResult → List DiscoveryResult
  | [] => []
  | x :: xs => insertDesc x (sortScoreDesc xs)

/-- `DiscoveryEngine.discover_all`: sort the matches by score descending;
`none` models the `DiscoveryError` raised when the list is empty. -/
def discover_all (rs : String → String → Bool → Bool) (root : String)
    (cands : List Candidate) (s : Signature) : Option (List DiscoveryResult) :=
  let results := sortScoreDesc (match_candidates rs root cands s)
  if results = [] then none else results

/-- The accumulator update inside `DiscoveryEngine._best_match`'s loop:
replace the current best iff `candidate.score > best.score` (or no best
yet). -/
def bestStep (best : Option DiscoveryResult) (c : DiscoveryResult) :
    Option DiscoveryResult :=
  match best with
  | none => some c
  | some b => if c.score > b.score then some c else some b

/-- `DiscoveryEngine._best_match`: stream the matches, keeping the first
strictly-best one; `none` models the `DiscoveryError` raise. -/
def best_match (rs : String → String → Bool → Bool) (root : String)
    (cands : List Candidate) (s : Signature) : Option DiscoveryResult :=
  (match_candidates rs root cands s).foldl bestStep none

/-- `DiscoveryEngine.discover(signature, load=False)`: returns the
`_best_match` record without importing anything. -/
def discover_noload (rs : String → String → Bool → Bool) (root : String)
    (cands : List Candidate) (s : Signature) : Option DiscoveryResult :=
  best_match rs root cands s

/-- Models Python `list.remove(s)` on `sys.path`: drop the first occurrence;
the `except ValueError: pass` around it makes a missing element a no-op,
which is exactly the behaviour of returning the list unchanged. -/
def pyListRemove (s : String) : List String → List String
  | [] => []
  | x :: xs => if x = s then xs else x :: pyListRemove s xs

/-- The three ways the import section of `DiscoveryResult.load` can go:
`importlib.import_module` succeeds; it raises `ImportError` and the
file-path fallback succeeds; or the fallback raises too. -/
inductive ImportOutcome
  | importOk
  | fallbackOk
  | fallbackRaises
deriving Repr, DecidableEq

/-- The `sys.path` manipulation of `DiscoveryResult.load`: prepend the root
iff absent (remembering `cleanup_path`), run the import (modelled by `oc`;
the import itself does not touch the path), and in the `finally` block
remove the exact string added iff `cleanup_path`.  Returns (import
succeeded?, final `sys.path`); the `finally` runs on every outcome. -/
def load_path_effect (root_str : String) (sysPath : List String)
    (oc : ImportOutcome) : Bool × List String :=
  let cleanup_path : Bool := if root_str ∈ sysPath then false else true
  let path1 := if cleanup_path then root_str :: sysPath else sysPath
  let ok := match oc with
    | ImportOutcome.importOk => true
    | ImportOutcome.fallbackOk => true
    | ImportOutcome.fallbackRaises => false
  let path2 := if cleanup_path then pyListRemove root_str path1 else path1
  (ok, path2)

/-- `DiscoveryEngine._module_name_for` on the components of the file path
relative to the root: drop a trailing `__init__.py` component entirely,
otherwise strip the `.py` suffix from the last component (`parts[-1][:-3]`),
then `'.'.join`. -/
def module_name_for (parts : List String) : String :=
  match parts.getLast? with
  | none => ""
  | some last =>
    joinDots (if last = "__init__.py" then parts.dropLast
              else parts.dropLast ++ [pySliceDropRight last 3])

/-- `DiscoveryResult._fallback_module_name`: join the parts of
`rel.with_suffix("")` (which replaces the last component by its stem) with
dots, falling back to the file stem when the join is empty. -/
def fallback_module_name (parts : List String) : String :=
  match parts.getLast? with
  | none => ""
  | some last =>
    let dotted := joinDots (parts.dropLast ++ [pathStem last])
    if dotted = "" then pathStem last else dotted

/-- The module name `DiscoveryResult.load` actually imports:
`self.module or self._fallback_module_name()` with Python truthiness on the
stored (possibly empty) module string. -/
def effective_module_name (parts : List String) : String :=
  let m := module_name_for parts
  if m = "" then fallback_module_name parts else m

/-- The fragment of `ast.expr` that decorator and base expressions range
over: bare names, dotted attribute access, calls, and constants (the
rendering of a constant carries its `repr`). -/
inductive PyExpr
  | name (id : String)
  | attribute (value : PyExpr) (attr : String)
  | call (func : PyExpr) (args : List PyExpr)
  | constant (text : String)

mutual

/-- Models `ast.unparse` on the expression fragment above: names print as
themselves, attributes as dotted chains, calls as callee followed by the
parenthesised comma-separated arguments, constants as their repr. -/
def unparseExpr : PyExpr → String
  | PyExpr.name id => id
  | PyExpr.attribute v a => unparseExpr v ++ "." ++ a
  | PyExpr.call f args =>
    unparseExpr f ++ "(" ++ String.intercalate ", " (unparseArgs args) ++ ")"
  | PyExpr.constant t => t

/-- Renders a call's argument list (helper for `unparseExpr`). -/
def unparseArgs : List PyExpr → List String
  | [] => []
  | e :: es => unparseExpr e :: unparseArgs es

end

/-- The `isinstance` chain at the bottom of `_expr_to_name` (reached only
when `ast.unparse` is unavailable, i.e. Python < 3.9): names render to
their identifier, attributes to dotted chains, calls to the rendering of
their callee, anything else to an `ast.dump`-style debug string. -/
def legacyExprName : PyExpr → String
  | PyExpr.name id => id
  | PyExpr.attribute v a => legacyExprName v ++ "." ++ a
  | PyExpr.call f _ => legacyExprName f
  | PyExpr.constant t => "Constant(" ++ t ++ ")"

/-- `DiscoveryEngine._expr_to_name`: when `hasattr(ast, "unparse")` (any
Python ≥ 3.9, modelled by `hasUnparse = true`) the full `ast.unparse`
rendering is returned; only otherwise does the structural fallback run. -/
def expr_to_name (hasUnparse : Bool) (e : PyExpr) : String :=
  if hasUnparse then unparseExpr e else legacyExprName e

/-- The fragment of `ast.stmt` the extractor inspects: top-level class,
function and async-function definitions (anything else is skipped).  A
class carries its body so that its direct function members can be
collected; `ast.get_docstring` is modelled by the carried `docstring`
field. -/
inductive PyStmt
  | classDef (name : String) (lineno : Nat) (body : List PyStmt)
      (decorator_list : List PyExpr) (basesE : List PyExpr)
      (docstring : Option String)
  | functionDef (name : String) (lineno : Nat) (decorator_list : List PyExpr)
      (docstring : Option String)
  | asyncFunctionDef (name : String) (lineno : Nat)
      (decorator_list : List PyExpr) (docstring : Option String)
  | otherStmt

/-- The method-collection comprehension inside the `ClassDef` branch of
`_extract_candidates`: names of the direct `FunctionDef` /
`AsyncFunctionDef` children. -/
def methodNames (body : List PyStmt) : List String :=
  body.filterMap (fun child =>
    match child with
    | PyStmt.functionDef nm _ _ _ => some nm
    | PyStmt.asyncFunctionDef nm _ _ _ => some nm
    | _ => none)

/-- One top-level node of `_extract_candidates`: classes yield a candidate
with collected methods, rendered decorators and bases; functions and
async functions yield a candidate with `methods=()`, `bases=()`; other
statements yield nothing. -/
def candidateOfStmt (hasUnparse : Bool) (module_name : String)
    (fileParts : List String) : PyStmt → Option Candidate
  | PyStmt.classDef nm ln body decos basesE doc =>
    some
      { name := nm
        type := "class"
        module := module_name
        filePath := fileParts
        lineno := ln
        methods := methodNames body
        decorators := decos.map (fun e => expr_to_name hasUnparse e)
        bases := basesE.map (fun e => expr_to_name hasUnparse e)
        docstring := doc }
  | PyStmt.functionDef nm ln decos doc =>
    some
      { name := nm
        type := "function"
        module := module_name
        filePath := fileParts
        lineno := ln
        methods := []
        decorators := decos.map (fun e => expr_to_name hasUnparse e)
        bases := []
        docstring := doc }
  | PyStmt.asyncFunctionDef nm ln decos doc =>
    some
      { name := nm
        type := "async_function"
        module := module_name
        filePath := fileParts
        lineno := ln
        methods := []
        decorators := decos.map (fun e => expr_to_name hasUnparse e)
        bases := []
        docstring := doc }
  | PyStmt.otherStmt => none

/-- How `file_path.read_text(encoding="utf-8")` can end: a source string, an
`OSError` (unreadable file), or a `UnicodeDecodeError` (bytes that are not
valid UTF-8; in Python this is a `ValueError`, not an `OSError`). -/
inductive ReadOutcome
  | ok (source : String)
  | osError
  | unicodeDecodeError
deriving Repr, DecidableEq

/-- The exceptions that can escape `_extract_candidates`. -/
inductive PyExc
  | unicodeDecodeError
deriving Repr, DecidableEq

/-- `DiscoveryEngine._extract_candidates`: `read_text` guarded by
`except OSError` (yield nothing), `ast.parse` guarded by `except
SyntaxError` (yield nothing; the abstract parser returns `none` on a
syntax error), then one candidate per matching top-level node.  A
`UnicodeDecodeError` from `read_text` is caught by neither handler and
escapes (`Except.error`). -/
def extract_candidates (hasUnparse : Bool) (module_name : String)
    (fileParts : List String) (read : ReadOutcome)
    (parse : String → Option (List PyStmt)) : Except PyExc (List Candidate) :=
  match read with
  | ReadOutcome.osError => Except.ok []
  | ReadOutcome.unicodeDecodeError => Except.error PyExc.unicodeDecodeError
  | ReadOutcome.ok source =>
    match parse source with
    | none => Except.ok []
    | some body =>
      Except.ok (body.filterMap (candidateOfStmt hasUnparse module_name fileParts))

/-- Truncation to a 32-bit word. -/
def w32 (n : Nat) : Nat := n % 4294967296

/-- 32-bit left rotation (for `n < 2^32` the shifted-out high bits land in
the low positions). -/
def rotl32 (n k : Nat) : Nat := w32 (n * 2 ^ k) + n / 2 ^ (32 - k)

/-- The UTF-8 bytes of a string (`str.encode("utf-8")`). -/
def strBytes (s : String) : List Nat :=
  s.toUTF8.toList.map (fun b => b.toNat)

/-- Big-endian byte rendering of `v` on `bytes` bytes. -/
def beBytes (v bytes : Nat) : List Nat :=
  (List.range bytes).map (fun i => v / 256 ^ (bytes - 1 - i) % 256)

/-- SHA-1 message padding: a 0x80 byte, zeros to 56 mod 64, then the bit
length on 8 big-endian bytes. -/
def sha1Pad (msg : List Nat) : List Nat :=
  msg ++ [128] ++ List.replicate ((55 + 64 - msg.length % 64) % 64) 0 ++
    beBytes (msg.length * 8) 8

/-- Split a byte list into 64-byte chunks (fuelled by the list length, which
always suffices). -/
def chunksAux : Nat → List Nat → List (List Nat)
  | 0, _ => []
  | _, [] => []
  | n + 1, l => l.take 64 :: chunksAux n (l.drop 64)

/-- All 64-byte blocks of a padded message. -/
def chunks64 (l : List Nat) : List (List Nat) := chunksAux l.length l

/-- The sixteen 32-bit big-endian words of one 64-byte block. -/
def blockWords (b : List Nat) : List Nat :=
  (List.range 16).map (fun i =>
    b.getD (4 * i) 0 * 16777216 + b.getD (4 * i + 1) 0 * 65536 +
      b.getD (4 * i + 2) 0 * 256 + b.getD (4 * i + 3) 0)

/-- SHA-1 message-schedule extension from 16 to 80 words. -/
def sha1W (ws : List Nat) : List Nat :=
  (List.range 64).foldl
    (fun ws _ =>
      ws ++ [rotl32
        (Nat.xor (Nat.xor (ws.getD (ws.length - 3) 0) (ws.getD (ws.length - 8) 0))
          (Nat.xor (ws.getD (ws.length - 14) 0) (ws.getD (ws.length - 16) 0))) 1])
    ws

/-- The SHA-1 round function. -/
def sha1F (t b c d : Nat) : Nat :=
  if t < 20 then Nat.lor (Nat.land b c) (Nat.land (4294967295 - b) d)
  else if t < 40 then Nat.xor b (Nat.xor c d)
  else if t < 60 then Nat.lor (Nat.lor (Nat.land b c) (Nat.land b d)) (Nat.land c d)
  else Nat.xor b (Nat.xor c d)

/-- The SHA-1 round constants. -/
def sha1K (t : Nat) : Nat :=
  if t < 20 then 1518500249
  else if t < 40 then 1859775393
  else if t < 60 then 2400959708
  else 3395469782

/-- One SHA-1 compression step over a 64-byte block. -/
def sha1Compress (h : Nat × Nat × Nat × Nat × Nat) (block : List Nat) :
    Nat × Nat × Nat × Nat × Nat :=
  let ws := sha1W (blockWords block)
  let st := (List.range 80).foldl
    (fun st t =>
      let temp := w32 (rotl32 st.1 5 + sha1F t st.2.1 st.2.2.1 st.2.2.2.1 +
        st.2.2.2.2 + sha1K t + ws.getD t 0)
      (temp, st.1, rotl32 st.2.1 30, st.2.2.1, st.2.2.2.1)) h
  (w32 (h.1 + st.1), w32 (h.2.1 + st.2.1), w32 (h.2.2.1 + st.2.2.1),
    w32 (h.2.2.2.1 + st.2.2.2.1), w32 (h.2.2.2.2 + st.2.2.2.2))

/-- `hashlib.sha1(s.encode("utf-8"))`: the five 32-bit state words of the
digest. -/
def sha1Digest (s : String) : Nat × Nat × Nat × Nat × Nat :=
  (chunks64 (sha1Pad (strBytes s))).foldl sha1Compress
    (1732584193, 4023233417, 2562383102, 271733878, 3285377520)

/-- One lower-case hex digit. -/
def hexChar (n : Nat) : Char :=
  if n < 10 then Char.ofNat (48 + n) else Char.ofNat (87 + n)

/-- `n` rendered as exactly `digits` lower-case hex characters (zero
padded). -/
def hexDigits (n digits : Nat) : String :=
  String.mk ((List.range digits).map (fun i => hexChar (n / 16 ^ (digits - 1 - i) % 16)))

/-- `hashlib.sha1(...).hexdigest()`: forty lower-case hex characters. -/
def sha1hexdigest (s : String) : String :=
  hexDigits (sha1Digest s).1 8 ++ hexDigits (sha1Digest s).2.1 8 ++
    hexDigits (sha1Digest s).2.2.1 8 ++ hexDigits (sha1Digest s).2.2.2.1 8 ++
    hexDigits (sha1Digest s).2.2.2.2 8

/-- The `hexdigest()[:8]` slice taken in `_load_module_from_path`. -/
def sha1hex8 (s : String) : String :=
  String.mk ((sha1hexdigest s).toList.take 8)

/-- The synthetic module name built by `DiscoveryResult._load_module_from_path`:
`f"{_MODULE_NAMESPACE}.{module_name or unique_suffix}"`, where
`unique_suffix` is the 8-character hash prefix and `module_name` is the
(possibly empty) name the standard import was attempted under. -/
def fallback_synthetic_name (filePathStr module_name : String) : String :=
  let unique_suffix := sha1hex8 filePathStr
  "_adaptive_discovery." ++ (if module_name = "" then unique_suffix else module_name)

/-- The "first element attaining the maximum score" of a result stream: the
specification of what both `_best_match`'s fold and the head of the stable
descending sort compute. -/
def firstMaxR : List DiscoveryResult → Option DiscoveryResult
  | [] => none
  | x :: xs =>
    match firstMaxR xs with
    | none => some x
    | some b => if b.score > x.score then some b else some x

/-- The signature with its `methods` requirement removed (the baseline
against which the methods bonus of `_score_candidate` is measured). -/
def dropMethods (s : Signature) : Signature := { s with methods := [] }

/-- The signature with all four sequence fields replaced (used to state
order/duplicate sensitivity of the scorer). -/
def withSeqFields (s : Signature) (ms ds bs dc : List String) : Signature :=
  { s with
    methods := ms
    decorators := ds
    bases := bs
    docstring_contains := dc }

/-- A regex signature (`re.search` pattern `"ABC"`) with case-sensitive
matching. -/
def sigRegexCS : Signature :=
  { name := "ABC"
    type := "class"
    methods := []
    module := none
    module_pattern := none
    decorators := []
    bases := []
    docstring_contains := []
    regex := true
    case_sensitive := true }

/-- The same regex signature with `case_sensitive=False`. -/
def sigRegexCI : Signature :=
  { sigRegexCS with case_sensitive := false }

/-- A class candidate named `abc` (lower case). -/
def candLowerAbc : Candidate :=
  { name := "abc"
    type := "class"
    module := "m"
    filePath := ["r", "zfile.py"]
    lineno := 1
    methods := []
    decorators := []
    bases := []
    docstring := none }

/-- A top-level `def run(): ...` statement. -/
def stmtRunFn : PyStmt := PyStmt.functionDef "run" 3 [] none

/-- The candidate the extractor produces for `stmtRunFn` in module `m`. -/
def candRunFn : Candidate :=
  { name := "run"
    type := "function"
    module := "m"
    filePath := ["m.py"]
    lineno := 3
    methods := []
    decorators := []
    bases := []
    docstring := none }

/-- A function-typed signature that nevertheless requires a method. -/
def sigRunWithMethods : Signature :=
  { name := "run"
    type := "function"
    methods := ["go"]
    module := none
    module_pattern := none
    decorators := []
    bases := []
    docstring_contains := []
    regex := false
    case_sensitive := true }

/-- The `TodoService` fixture class from the package's test suite. -/
def candTodo : Candidate :=
  { name := "TodoService"
    type := "class"
    module := "services"
    filePath := ["proj", "services.py"]
    lineno := 4
    methods := ["add", "complete", "list"]
    decorators := []
    bases := []
    docstring := some "Adaptive-aware todo service." }

/-- The signature used to discover `TodoService`. -/
def sigTodo : Signature :=
  { name := "TodoService"
    type := "class"
    methods := ["add", "complete", "list"]
    module := none
    module_pattern := none
    decorators := []
    bases := []
    docstring_contains := []
    regex := false
    case_sensitive := true }

/-- A class candidate whose docstring contains the fragment `x` once. -/
def candHelloDoc : Candidate :=
  { name := "A"
    type := "class"
    module := "m"
    filePath := ["r", "zz.py"]
    lineno := 1
    methods := []
    decorators := []
    bases := []
    docstring := some "hello x world" }

/-- A signature requiring the docstring fragment `x` once. -/
def sigDocOnce : Signature :=
  { name := "A"
    type := "class"
    methods := []
    module := none
    module_pattern := none
    decorators := []
    bases := []
    docstring_contains := ["x"]
    regex := false
    case_sensitive := true }

/-- The same signature with the fragment duplicated. -/
def sigDocTwice : Signature :=
  { sigDocOnce with docstring_contains := ["x", "x"] }

theorem hexDigits_length (n d : Nat) : (hexDigits n d).length = d := by
  simp [hexDigits, String.length_mk]

theorem sha1hexdigest_length (s : String) : (sha1hexdigest s).length = 40 := by
  simp [sha1hexdigest, String.length_append, hexDigits_length]

theorem sha1hex8_length (s : String) : (sha1hex8 s).length = 8 := by
  have h40 : (sha1hexdigest s).toList.length = 40 := sha1hexdigest_length s
  simp [sha1hex8, String.length_mk, List.length_take, h40, sha1hexdigest_length]

theorem joinDots_eq_empty (l : List String) (h : joinDots l = "") :
    l = [] ∨ ∃ x, l = [x] ∧ x = "" := by
  match l with
  | [] => exact Or.inl rfl
  | [x] => exact Or.inr ⟨x, rfl, h⟩
  | x :: y :: t =>
    exfalso
    have hlen := congrArg String.length h
    rw [joinDots] at hlen
    simp +decide [String.length_append] at hlen

theorem fallback_module_name_singleton (x : String) :
    fallback_module_name [x] = pathStem x := by
  simp [fallback_module_name, joinDots]

theorem exists_singleton_of_dropLast_nil (parts : List String) (h1 : parts ≠ [])
    (hdrop : parts.dropLast = []) : ∃ a, parts = [a] := by
  have hd : parts.dropLast.length = parts.length - 1 := List.length_dropLast parts
  rw [hdrop] at hd
  simp at hd
  have hpos : 0 < parts.length := List.length_pos.mpr h1
  have hlen1 : parts.length = 1 := by omega
  exact List.length_eq_one.mp hlen1

theorem insertDesc_perm (x : DiscoveryResult) (l : List DiscoveryResult) :
    (insertDesc x l).Perm (x :: l) := by
  induction l with
  | nil => exact List.Perm.refl _
  | cons y ys ih =>
    rw [insertDesc]
    split
    · exact List.Perm.refl _
    · exact (ih.cons y).trans (List.Perm.swap x y ys)

theorem sortScoreDesc_perm (l : List DiscoveryResult) : (sortScoreDesc l).Perm l := by
  induction l with
  | nil => exact List.Perm.refl _
  | cons x xs ih =>
    rw [sortScoreDesc]
    exact (insertDesc_perm x (sortScoreDesc xs)).trans (ih.cons x)

theorem sortScoreDesc_eq_nil_iff (l : List DiscoveryResult) :
    sortScoreDesc l = [] ↔ l = [] := by
  constructor
  · intro h
    have := (sortScoreDesc_perm l).length_eq
    rw [h] at this
    exact List.length_eq_zero.mp this.symm
  · intro h
    rw [h]
    rfl

theorem insertDesc_pairwise (x : DiscoveryResult) (l : List DiscoveryResult)
    (hl : l.Pairwise (fun a b => b.score ≤ a.score)) :
    (insertDesc x l).Pairwise (fun a b => b.score ≤ a.score) := by
  induction l with
  | nil => simp [insertDesc]
  | cons y ys ih =>
    rw [List.pairwise_cons] at hl
    rw [insertDesc]
    split
    · rename_i hxy
      refine List.Pairwise.cons ?_ (List.Pairwise.cons hl.1 hl.2)
      intro z hz
      rcases List.mem_cons.mp hz with rfl | hz'
      · exact hxy
      · exact le_trans (hl.1 z hz') hxy
    · rename_i hxy
      push_neg at hxy
      refine List.Pairwise.cons ?_ (ih hl.2)
      intro z hz
      rcases List.mem_cons.mp ((insertDesc_perm x ys).mem_iff.mp hz) with rfl | hz'
      · exact le_of_lt hxy
      · exact hl.1 z hz'

theorem sortScoreDesc_pairwise (l : List DiscoveryResult) :
    (sortScoreDesc l).Pairwise (fun a b => b.score ≤ a.score) := by
  induction l with
  | nil => simp [sortScoreDesc]
  | cons x xs ih =>
    rw [sortScoreDesc]
    exact insertDesc_pairwise x (sortScoreDesc xs) ih

theorem insertDesc_filter (x : DiscoveryResult) (l : List DiscoveryResult) (q : ℚ) :
    (insertDesc x l).filter (fun r => decide (r.score = q)) =
      if x.score = q then x :: l.filter (fun r => decide (r.score = q))
      else l.filter (fun r => decide (r.score = q)) := by
  induction l with
  | nil =>
    simp [insertDesc, List.filter]
    split_ifs <;> simp_all
  | cons y ys ih =>
    rw [insertDesc]
    split
    · rename_i hxy
      simp only [List.filter_cons]
      split_ifs <;> simp_all
    · rename_i hxy
      push_neg at hxy
      simp only [List.filter_cons, ih]
      split_ifs with h1 h2 <;> simp_all

theorem sortScoreDesc_filter (l : List DiscoveryResult) (q : ℚ) :
    (sortScoreDesc l).filter (fun r => decide (r.score = q)) =
      l.filter (fun r => decide (r.score = q)) := by
  induction l with
  | nil => rfl
  | cons x xs ih =>
    rw [sortScoreDesc, insertDesc_filter, List.filter_cons]
    split_ifs <;> simp_all

theorem insertDesc_head (x : DiscoveryResult) (l : List DiscoveryResult) :
    (insertDesc x l).head? =
      some (match l.head? with
            | none => x
            | some y => if y.score ≤ x.score then x else y) := by
  cases l with
  | nil => rfl
  | cons y ys =>
    rw [insertDesc]
    split <;> rename_i h <;> simp [h]

theorem sortScoreDesc_head (l : List DiscoveryResult) :
    (sortScoreDesc l).head? = firstMaxR l := by
  induction l with
  | nil => rfl
  | cons x xs ih =>
    rw [sortScoreDesc, firstMaxR, insertDesc_head, ih]
    cases h : firstMaxR xs with
    | none => rfl
    | some b =>
      simp only []
      split_ifs with h1 h2 <;> first | rfl | (exfalso; push_neg at *; linarith)

theorem foldl_bestStep (xs : List DiscoveryResult) (b : DiscoveryResult) :
    xs.foldl bestStep (some b) =
      some (match firstMaxR xs with
            | none => b
            | some m => if m.score > b.score then m else b) := by
  induction xs generalizing b with
  | nil => rfl
  | cons y ys ih =>
    rw [List.foldl_cons, firstMaxR]
    have hstep : bestStep (some b) y = some (if y.score > b.score then y else b) := by
      simp only [bestStep]
      split_ifs <;> rfl
    rw [hstep, ih]
    cases h : firstMaxR ys with
    | none =>
      dsimp only
    | some m =>
      dsimp only
      split_ifs <;> dsimp only <;>
        first
        | rfl
        | (split_ifs <;> first | rfl | (exfalso; push_neg at *; linarith))
        | (exfalso; push_neg at *; linarith)

theorem best_match_firstMax (rs : String → String → Bool → Bool) (root : String)
    (cands : List Candidate) (s : Signature) :
    best_match rs root cands s = firstMaxR (match_candidates rs root cands s) := by
  rw [best_match]
  cases hmc : match_candidates rs root cands s with
  | nil => rfl
  | cons x xs =>
    rw [List.foldl_cons]
    have hstep : bestStep none x = some x := rfl
    rw [hstep, foldl_bestStep, firstMaxR]
    cases h : firstMaxR xs with
    | none => rfl
    | some m =>
      simp only []
      split_ifs <;> rfl

theorem match_candidates_pos (rs : String → String → Bool → Bool) (root : String)
    (cands : List Candidate) (s : Signature) :
    ∀ r ∈ match_candidates rs root cands s, 0 < r.score := by
  intro r hr
  rw [match_candidates] at hr
  obtain ⟨c, _, hc⟩ := List.mem_filterMap.mp hr
  dsimp only at hc
  split at hc
  · exact absurd hc (by simp)
  · rename_i hpos
    push_neg at hpos
    cases hc
    exact hpos

theorem match_candidates_ne_nil (rs : String → String → Bool → Bool) (root : String)
    (cands : List Candidate) (s : Signature) (c : Candidate) (hc : c ∈ cands)
    (hpos : 0 < score_candidate rs c s) :
    match_candidates rs root cands s ≠ [] := by
  intro hnil
  rw [match_candidates] at hnil
  have hall := List.filterMap_eq_nil.mp hnil c hc
  dsimp only at hall
  rw [if_neg (by push_neg; exact hpos)] at hall
  exact absurd hall (by simp)

theorem decoratorsStep_shift (c : Candidate) (s : Signature) (x d : ℚ) :
    decoratorsStep c s (x + d) = (decoratorsStep c s x).map (fun v => v + d) := by
  simp only [decoratorsStep]
  split_ifs <;> simp <;> ring

theorem basesStep_shift (c : Candidate) (s : Signature) (x d : ℚ) :
    basesStep c s (x + d) = (basesStep c s x).map (fun v => v + d) := by
  simp only [basesStep]
  split_ifs <;> simp <;> ring

theorem docstringStep_shift (c : Candidate) (s : Signature) (x d : ℚ) :
    docstringStep c s (x + d) = (docstringStep c s x).map (fun v => v + d) := by
  simp only [docstringStep]
  split_ifs <;> simp <;> ring

theorem moduleStep_shift (rs : String → String → Bool → Bool) (c : Candidate)
    (s : Signature) (x d : ℚ) :
    moduleStep rs c s (x + d) = (moduleStep rs c s x).map (fun v => v + d) := by
  simp only [moduleStep]
  split_ifs <;> simp <;> ring

theorem stemStep_shift (c : Candidate) (s : Signature) (x d : ℚ) :
    stemStep c s (x + d) = stemStep c s x + d := by
  simp only [stemStep]
  split_ifs <;> ring

theorem qualifiers_shift (rs : String → String → Bool → Bool) (c : Candidate)
    (s : Signature) (x d : ℚ) :
    qualifiers rs c s (x + d) = (qualifiers rs c s x).map (fun v => v + d) := by
  simp only [qualifiers]
  rw [decoratorsStep_shift]
  cases hd : decoratorsStep c s x with
  | none => simp
  | some v1 =>
    simp only [Option.map_some', Option.some_bind]
    rw [basesStep_shift]
    cases hb : basesStep c s v1 with
    | none => simp
    | some v2 =>
      simp only [Option.map_some', Option.some_bind]
      rw [docstringStep_shift]
      cases hdoc : docstringStep c s v2 with
      | none => simp
      | some v3 =>
        simp only [Option.map_some', Option.some_bind]
        rw [moduleStep_shift]

theorem ratio_lt_half_iff (k n : Nat) (hn : 0 < n) :
    ((k : ℚ) / (n : ℚ) < 1/2) ↔ 2 * k < n := by
  have hnq : (0 : ℚ) < (n : ℚ) := by exact_mod_cast hn
  rw [div_lt_iff hnq]
  constructor
  · intro h
    have h2 : ((2 * k : Nat) : ℚ) < ((n : Nat) : ℚ) := by push_cast; linarith
    exact_mod_cast h2
  · intro h
    have h2 : ((2 * k : Nat) : ℚ) < ((n : Nat) : ℚ) := by exact_mod_cast h
    push_cast at h2
    linarith

theorem score_shift_of_methodsStep (rs : String → String → Bool → Bool)
    (c : Candidate) (s : Signature) (d : ℚ)
    (hstep : methodsStep c s (name_score rs c.name s) =
      some (name_score rs c.name s + d))
    (hpos : 0 < score_candidate rs c (dropMethods s)) :
    score_candidate rs c s = score_candidate rs c (dropMethods s) + d := by
  have hq : qualifiers rs c (dropMethods s) = qualifiers rs c s := rfl
  have hns : name_score rs c.name (dropMethods s) = name_score rs c.name s := rfl
  have htm : type_matches (dropMethods s).type c.type = type_matches s.type c.type := rfl
  have hstem : ∀ v, stemStep c (dropMethods s) v = stemStep c s v := fun _ => rfl
  have hdropstep : ∀ x : ℚ, methodsStep c (dropMethods s) x = some x := by
    intro x
    simp [methodsStep, dropMethods]
  by_cases h1 : type_matches s.type c.type = false
  · exfalso
    rw [score_candidate, htm, if_pos h1] at hpos
    exact lt_irrefl 0 hpos
  · by_cases h2 : name_score rs c.name s = 0
    · exfalso
      rw [score_candidate, htm, if_neg h1] at hpos
      rw [hns, if_pos h2] at hpos
      exact lt_irrefl 0 hpos
    · have hdrop_eq :
          score_candidate rs c (dropMethods s) =
            match qualifiers rs c s (name_score rs c.name s) with
            | none => (0 : ℚ)
            | some sc => stemStep c s sc := by
        simp only [score_candidate, htm, hns, hq, hdropstep, if_neg h1, if_neg h2,
          Option.some_bind]
        cases hqq : qualifiers rs c s (name_score rs c.name s) <;> simp [hstem]
      have hs_eq :
          score_candidate rs c s =
            match (qualifiers rs c s (name_score rs c.name s)).map (fun v => v + d) with
            | none => (0 : ℚ)
            | some sc => stemStep c s sc := by
        simp only [score_candidate, if_neg h1, if_neg h2, hstep, Option.some_bind]
        rw [qualifiers_shift]
      cases hqq : qualifiers rs c s (name_score rs c.name s) with
      | none =>
        exfalso
        rw [hdrop_eq, hqq] at hpos
        exact lt_irrefl 0 hpos
      | some v =>
        rw [hs_eq, hdrop_eq, hqq]
        simp only [Option.map_some']
        exact stemStep_shift c s v d

/-- C1: for every signature with at least one positive-scoring candidate,
`discover_all` returns exactly the positive-scoring candidates (a
permutation of the match stream, all scores positive), sorted by score
descending with ties kept in encounter order (the per-score filtrations are
preserved verbatim), and its first element is the very `DiscoveryResult`
that `discover(signature, load=False)` (i.e. `_best_match`) returns, hence
equal to it on all fields. -/
theorem c1_discover_all_refines_discover (rs : String → String → Bool → Bool)
    (root : String) (cands : List Candidate) (s : Signature)
    (h : match_candidates rs root cands s ≠ []) :
    ∃ l, discover_all rs root cands s = some l ∧
      l.Perm (match_candidates rs root cands s) ∧
      l.Pairwise (fun a b => b.score ≤ a.score) ∧
      (∀ q : ℚ, l.filter (fun r => decide (r.score = q)) =
        (match_candidates rs root cands s).filter (fun r => decide (r.score = q))) ∧
      (∀ r ∈ l, 0 < r.score) ∧
      l.head? = discover_noload rs root cands s ∧
      discover_noload rs root cands s = best_match rs root cands s := by
  refine ⟨sortScoreDesc (match_candidates rs root cands s), ?_, ?_, ?_, ?_, ?_, ?_, rfl⟩
  · rw [discover_all]
    rw [if_neg (by simpa [sortScoreDesc_eq_nil_iff] using h)]
  · exact sortScoreDesc_perm _
  · exact sortScoreDesc_pairwise _
  · intro q
    exact sortScoreDesc_filter _ q
  · intro r hr
    exact match_candidates_pos rs root cands s r
      ((sortScoreDesc_perm _).mem_iff.mp hr)
  · rw [sortScoreDesc_head, discover_noload, best_match_firstMax]

/-- Witness for C1 at a concrete one-candidate project. -/
theorem c1_witness :
    match_candidates literalSearch "/proj" [candTodo] sigTodo ≠ [] ∧
    ∃ l, discover_all literalSearch "/proj" [candTodo] sigTodo = some l ∧
      l.head? = discover_noload literalSearch "/proj" [candTodo] sigTodo := by
  have hpos : 0 < score_candidate literalSearch candTodo sigTodo := by
    simp +decide only [score_candidate, type_matches, name_score, methodsStep, qualifiers,
      decoratorsStep, basesStep, docstringStep, moduleStep, stemStep, candTodo, sigTodo,
      if_true, if_false, ite_true, ite_false, Option.bind]
    norm_num
  have hne := match_candidates_ne_nil literalSearch "/proj" [candTodo] sigTodo candTodo
    (by simp) hpos
  obtain ⟨l, h1, _, _, _, _, h6, _⟩ :=
    c1_discover_all_refines_discover literalSearch "/proj" [candTodo] sigTodo hne
  exact ⟨hne, l, h1, h6⟩

/-- C2: the `sys.path` manipulation of `DiscoveryResult.load` leaves the
search path without the prepended root string on every exit path (standard
import, fallback import, fallback failure) unless that string was already
present before the call, in which case the path-manipulation step leaves
`sys.path` unchanged. -/
theorem c2_load_restores_sys_path (root_str : String) (sysPath : List String)
    (oc : ImportOutcome) :
    (root_str ∈ sysPath → (load_path_effect root_str sysPath oc).2 = sysPath) ∧
    (root_str ∉ sysPath → root_str ∉ (load_path_effect root_str sysPath oc).2) := by
  constructor
  · intro h
    simp [load_path_effect, h]
  · intro h
    have hpath : (load_path_effect root_str sysPath oc).2 = sysPath := by
      simp [load_path_effect, h, pyListRemove]
    rw [hpath]
    exact h

/-- Witness for C2 on a concrete path list and the failing-fallback exit. -/
theorem c2_witness :
    ("/r" : String) ∉ (["/a", "/b"] : List String) ∧
    ("/r" : String) ∉ (load_path_effect "/r" ["/a", "/b"] ImportOutcome.fallbackRaises).2 :=
  ⟨by decide,
    (c2_load_restores_sys_path "/r" ["/a", "/b"] ImportOutcome.fallbackRaises).2 (by decide)⟩

/-- C3 (code bug): `_extract_candidates` swallows `OSError` (unreadable
file) and `SyntaxError` (unparseable file), yielding zero candidates, but a
file whose bytes are not valid UTF-8 makes `read_text` raise
`UnicodeDecodeError` — a `ValueError`, caught by neither handler — which
propagates to the `discover` / `discover_all` caller, contradicting the
spec's "this stage must never raise". -/
theorem c3_invalid_utf8_escapes :
    extract_candidates true "mod" ["mod.py"] ReadOutcome.osError (fun _ => none) =
      Except.ok [] ∧
    extract_candidates true "mod" ["mod.py"] (ReadOutcome.ok "def (") (fun _ => none) =
      Except.ok [] ∧
    extract_candidates true "mod" ["mod.py"] ReadOutcome.unicodeDecodeError (fun _ => none) =
      Except.error PyExc.unicodeDecodeError :=
  ⟨rfl, rfl, rfl⟩

/-- C4: with a non-empty `signature.methods` (entries counted as the source
counts them, duplicates included): strictly fewer than half the required
methods present disqualifies the candidate (score 0); when the candidate is
not otherwise disqualified (positive score with the methods requirement
removed), full coverage adds exactly +0.3 and coverage of at least half but
not all adds exactly 0.2 times the fraction of required methods present. -/
theorem c4_method_coverage (rs : String → String → Bool → Bool) (c : Candidate)
    (s : Signature) (hne : s.methods ≠ []) :
    (2 * s.methods.countP (fun m => c.methods.contains m) < s.methods.length →
      score_candidate rs c s = 0) ∧
    (0 < score_candidate rs c (dropMethods s) →
      (s.methods.countP (fun m => c.methods.contains m) = s.methods.length →
        score_candidate rs c s = score_candidate rs c (dropMethods s) + 3/10) ∧
      (s.methods.length ≤ 2 * s.methods.countP (fun m => c.methods.contains m) →
        s.methods.countP (fun m => c.methods.contains m) ≠ s.methods.length →
        score_candidate rs c s = score_candidate rs c (dropMethods s) +
          2/10 * ((s.methods.countP (fun m => c.methods.contains m) : ℚ) /
            (s.methods.length : ℚ)))) := by
  have hn : 0 < s.methods.length := List.length_pos.mpr hne
  refine ⟨?_, fun hpos => ⟨?_, ?_⟩⟩
  · intro hlt
    have hkn : s.methods.countP (fun m => c.methods.contains m) ≠ s.methods.length := by
      omega
    have hstep : methodsStep c s (name_score rs c.name s) = none := by
      simp only [methodsStep, if_neg hne]
      rw [if_pos hkn, if_pos ((ratio_lt_half_iff _ _ hn).mpr hlt)]
    simp [score_candidate, hstep]
  · intro heq
    have hstep : methodsStep c s (name_score rs c.name s) =
        some (name_score rs c.name s + 3/10) := by
      simp only [methodsStep, if_neg hne]
      rw [if_neg (not_not_intro heq)]
    exact score_shift_of_methodsStep rs c s (3/10) hstep hpos
  · intro hle hkn
    have hstep : methodsStep c s (name_score rs c.name s) =
        some (name_score rs c.name s +
          2/10 * ((s.methods.countP (fun m => c.methods.contains m) : ℚ) /
            (s.methods.length : ℚ))) := by
      simp only [methodsStep, if_neg hne]
      rw [if_pos hkn, if_neg ((not_congr (ratio_lt_half_iff _ _ hn)).mpr (by omega))]
    exact score_shift_of_methodsStep rs c s _ hstep hpos

/-- Witness for C4 at the TodoService fixture (full method coverage). -/
theorem c4_witness :
    sigTodo.methods ≠ [] ∧
    0 < score_candidate literalSearch candTodo (dropMethods sigTodo) ∧
    sigTodo.methods.countP (fun m => candTodo.methods.contains m) =
      sigTodo.methods.length ∧
    score_candidate literalSearch candTodo sigTodo =
      score_candidate literalSearch candTodo (dropMethods sigTodo) + 3/10 := by
  have h1 : sigTodo.methods ≠ [] := by decide
  have h2 : 0 < score_candidate literalSearch candTodo (dropMethods sigTodo) := by
    simp +decide only [score_candidate, type_matches, name_score, methodsStep, qualifiers,
      decoratorsStep, basesStep, docstringStep, moduleStep, stemStep, dropMethods,
      candTodo, sigTodo, if_true, if_false, ite_true, ite_false, Option.some_bind]
    norm_num
  have h3 : sigTodo.methods.countP (fun m => candTodo.methods.contains m) =
      sigTodo.methods.length := by decide
  exact ⟨h1, h2, h3, ((c4_method_coverage literalSearch candTodo sigTodo h1).2 h2).1 h3⟩

/-- C5 counterexample: the sequence fields are frozen as tuples, not sets —
duplicating the docstring fragment `x` raises the score from 0.72 to 0.74,
so a signature with a repeated element does not score like its
deduplicated form and duplicates do increase the score. -/
theorem c5_counterexample :
    score_candidate literalSearch candHelloDoc sigDocOnce = 18/25 ∧
    score_candidate literalSearch candHelloDoc sigDocTwice = 37/50 ∧
    score_candidate literalSearch candHelloDoc sigDocOnce <
      score_candidate literalSearch candHelloDoc sigDocTwice := by
  have h1 : score_candidate literalSearch candHelloDoc sigDocOnce = 18/25 := by
    simp +decide only [score_candidate, type_matches, name_score, methodsStep, qualifiers,
      decoratorsStep, basesStep, docstringStep, moduleStep, stemStep, candHelloDoc,
      sigDocOnce, if_true, if_false, ite_true, ite_false, Option.some_bind,
      List.countP_cons, List.countP_nil]
    norm_num
  have h2 : score_candidate literalSearch candHelloDoc sigDocTwice = 37/50 := by
    simp +decide only [score_candidate, type_matches, name_score, methodsStep, qualifiers,
      decoratorsStep, basesStep, docstringStep, moduleStep, stemStep, candHelloDoc,
      sigDocOnce, sigDocTwice, if_true, if_false, ite_true, ite_false, Option.some_bind,
      List.countP_cons, List.countP_nil]
    norm_num
  refine ⟨h1, h2, ?_⟩
  rw [h1, h2]
  norm_num

/-- C5 (amended): the scorer is order-independent — permuting any of the
four sequence fields of a signature leaves every candidate's score
unchanged — but it is not duplicate-independent (see the counterexample):
the fields are frozen as tuples and duplicate entries in `methods` or
`docstring_contains` can change, and increase, the score. -/
theorem c5_perm_invariance (rs : String → String → Bool → Bool) (c : Candidate)
    (s : Signature) (ms ds bs dc : List String)
    (hm : s.methods.Perm ms) (hd : s.decorators.Perm ds)
    (hb : s.bases.Perm bs) (hdc : s.docstring_contains.Perm dc) :
    score_candidate rs c (withSeqFields s ms ds bs dc) = score_candidate rs c s := by
  have hms : ∀ x : ℚ,
      methodsStep c (withSeqFields s ms ds bs dc) x = methodsStep c s x := by
    intro x
    by_cases hc : s.methods = []
    · have hc2 : ms = [] := by
        rw [hc] at hm
        exact hm.symm.eq_nil
      simp [methodsStep, withSeqFields, hc, hc2]
    · have hc2 : ms ≠ [] := fun h => hc (by rw [h] at hm; exact hm.eq_nil)
      have hc3 : (withSeqFields s ms ds bs dc).methods = ms := rfl
      simp only [methodsStep, hc3, if_neg hc, if_neg hc2]
      rw [hm.countP_eq, hm.length_eq]
  have hdec : ∀ x : ℚ,
      decoratorsStep c (withSeqFields s ms ds bs dc) x = decoratorsStep c s x := by
    intro x
    by_cases hc : s.decorators = []
    · have hc2 : ds = [] := by
        rw [hc] at hd
        exact hd.symm.eq_nil
      simp [decoratorsStep, withSeqFields, hc, hc2]
    · have hc2 : ds ≠ [] := fun h => hc (by rw [h] at hd; exact hd.eq_nil)
      have hc3 : (withSeqFields s ms ds bs dc).decorators = ds := rfl
      simp only [decoratorsStep, hc3, if_neg hc, if_neg hc2]
      rw [hd.countP_eq, hd.length_eq]
  have hbas : ∀ x : ℚ,
      basesStep c (withSeqFields s ms ds bs dc) x = basesStep c s x := by
    intro x
    by_cases hc : s.bases = []
    · have hc2 : bs = [] := by
        rw [hc] at hb
        exact hb.symm.eq_nil
      simp [basesStep, withSeqFields, hc, hc2]
    · have hc2 : bs ≠ [] := fun h => hc (by rw [h] at hb; exact hb.eq_nil)
      have hc3 : (withSeqFields s ms ds bs dc).bases = bs := rfl
      simp only [basesStep, hc3, if_neg hc, if_neg hc2]
      rw [hb.countP_eq, hb.length_eq]
  have hdoc : ∀ x : ℚ,
      docstringStep c (withSeqFields s ms ds bs dc) x = docstringStep c s x := by
    intro x
    by_cases hc : s.docstring_contains = []
    · have hc2 : dc = [] := by
        rw [hc] at hdc
        exact hdc.symm.eq_nil
      simp [docstringStep, withSeqFields, hc, hc2]
    · have hc2 : dc ≠ [] := fun h => hc (by rw [h] at hdc; exact hdc.eq_nil)
      have hc3 : (withSeqFields s ms ds bs dc).docstring_contains = dc := rfl
      simp only [docstringStep, hc3, if_neg hc, if_neg hc2]
      rw [hdc.countP_eq]
  have hmod : moduleStep rs c (withSeqFields s ms ds bs dc) = moduleStep rs c s := rfl
  have hqual : ∀ x : ℚ,
      qualifiers rs c (withSeqFields s ms ds bs dc) x = qualifiers rs c s x := by
    intro x
    simp only [qualifiers, hdec x, hmod]
    cases hdd : decoratorsStep c s x with
    | none => rfl
    | some v1 =>
      simp only [Option.some_bind, hbas v1]
      cases hbb : basesStep c s v1 with
      | none => rfl
      | some v2 =>
        simp only [Option.some_bind, hdoc v2]
  have h1 : type_matches (withSeqFields s ms ds bs dc).type c.type =
      type_matches s.type c.type := rfl
  have h2 : name_score rs c.name (withSeqFields s ms ds bs dc) =
      name_score rs c.name s := rfl
  have h3 : ∀ v : ℚ, stemStep c (withSeqFields s ms ds bs dc) v = stemStep c s v :=
    fun _ => rfl
  simp only [score_candidate, h1, h2, hms]
  cases hmm : methodsStep c s (name_score rs c.name s) with
  | none => rfl
  | some v =>
    simp only [Option.some_bind, hqual v]
    cases hqq : qualifiers rs c s v with
    | none => rfl
    | some w => simp only [h3 w]

/-- Witness for C5's permutation invariance at a concrete reordering. -/
theorem c5_witness :
    sigTodo.methods.Perm ["list", "add", "complete"] ∧
    score_candidate literalSearch candTodo
        (withSeqFields sigTodo ["list", "add", "complete"] [] [] []) =
      score_candidate literalSearch candTodo sigTodo := by
  have hp : sigTodo.methods.Perm ["list", "add", "complete"] := by decide
  exact ⟨hp, c5_perm_invariance literalSearch candTodo sigTodo _ _ _ _ hp (by decide)
    (by decide) (by decide)⟩

/-- C6: for every file path (non-empty components, last ending in `.py`),
the candidate's stored module name is exactly the claimed derivation —
relative parts, extension stripped, a trailing `__init__.py` component
dropped entirely, joined with dots — and whenever that join is empty the
module name under which the loader imports (`self.module or
self._fallback_module_name()`) is the file stem. -/
theorem c6_module_name_derivation (parts : List String) (h1 : parts ≠ [])
    (h2 : ∀ p ∈ parts, p ≠ "") (h3 : pyEndsWith (parts.getLast h1) ".py" = true) :
    module_name_for parts =
      joinDots (if parts.getLast h1 = "__init__.py" then parts.dropLast
                else parts.dropLast ++ [pySliceDropRight (parts.getLast h1) 3]) ∧
    (module_name_for parts = "" →
      effective_module_name parts = pathStem (parts.getLast h1)) := by
  have hlast : parts.getLast? = some (parts.getLast h1) := List.getLast?_eq_getLast parts h1
  constructor
  · simp [module_name_for, hlast]
  · intro hm
    have hm2 := hm
    simp only [module_name_for, hlast] at hm2
    have hsingle : ∃ a, parts = [a] := by
      split at hm2
      · rcases joinDots_eq_empty _ hm2 with hnil | ⟨x, hx, hxe⟩
        · exact exists_singleton_of_dropLast_nil parts h1 hnil
        · exfalso
          have hmem : x ∈ parts := List.dropLast_subset parts (by simp [hx])
          exact h2 x hmem hxe
      · rcases joinDots_eq_empty _ hm2 with hnil | ⟨x, hx, hxe⟩
        · exfalso
          have hlnil := congrArg List.length hnil
          simp [List.length_append] at hlnil
        · have hdrop : parts.dropLast = [] := by
            cases hd : parts.dropLast with
            | nil => rfl
            | cons z zs =>
              exfalso
              rw [hd] at hx
              have hlx := congrArg List.length hx
              simp [List.length_append] at hlx
          exact exists_singleton_of_dropLast_nil parts h1 hdrop
    obtain ⟨a, ha⟩ := hsingle
    subst ha
    simp only [List.getLast_singleton]
    rw [effective_module_name]
    simp only [hm, if_true, ite_true]
    exact fallback_module_name_singleton a

/-- Witness for C6: a package file and a root-level package-init file. -/
theorem c6_witness :
    module_name_for ["pkg", "todo.py"] = "pkg.todo" ∧
    module_name_for ["__init__.py"] = "" ∧
    effective_module_name ["__init__.py"] = "__init__" := by
  refine ⟨by decide, by decide, ?_⟩
  have h := (c6_module_name_derivation ["__init__.py"] (by decide) (by decide)
    (by decide)).2 (by decide)
  rw [h]
  decide

/-- C7 counterexample: with `ast.unparse` available (every Python ≥ 3.9) a
call-form decorator renders to the full call text, so `@repeat(3)` yields
`"repeat(3)"`, not the callee name `"repeat"` that the bare decorator
yields — the two do not normalize to the same string. -/
theorem c7_counterexample :
    expr_to_name true (PyExpr.call (PyExpr.name "repeat") [PyExpr.constant "3"]) = "repeat(3)" ∧
    expr_to_name true (PyExpr.name "repeat") = "repeat" ∧
    ("repeat(3)" : String) ≠ "repeat" := by
  refine ⟨?_, ?_, by decide⟩
  · simp only [expr_to_name, unparseExpr, unparseArgs, if_true, ite_true]
    rfl
  · simp only [expr_to_name, unparseExpr, if_true, ite_true]

/-- C7 (amended): only on the structural fallback path — taken when
`ast.unparse` is unavailable, i.e. Python < 3.9 — does a call expression
render to the rendering of its callee; with `ast.unparse` available the
rendered form is the full call text. -/
theorem c7_legacy_call_renders_callee (f : PyExpr) (args : List PyExpr) :
    expr_to_name false (PyExpr.call f args) = expr_to_name false f := rfl

/-- C8 counterexample: when the attempted module name is non-empty the
synthetic fallback name carries no hash at all, so two distinct files that
were discovered under the same module name (for example the same leaf file
under two different roots) receive the identical synthetic name. -/
theorem c8_counterexample :
    fallback_synthetic_name "/r1/foo.py" "foo" = "_adaptive_discovery.foo" ∧
    fallback_synthetic_name "/r2/foo.py" "foo" = "_adaptive_discovery.foo" ∧
    ("/r1/foo.py" : String) ≠ "/r2/foo.py" :=
  ⟨rfl, rfl, by decide⟩

/-- C8 (amended): the synthetic name is always prefixed with
`_adaptive_discovery.`; its suffix is the 8-character sha1-hexdigest prefix
of the file path only when the attempted module name is empty, and is the
module name itself otherwise. -/
theorem c8_synthetic_name_shape (filePathStr module_name : String) :
    fallback_synthetic_name filePathStr module_name =
      "_adaptive_discovery." ++
        (if module_name = "" then sha1hex8 filePathStr else module_name) ∧
    (sha1hex8 filePathStr).length = 8 :=
  ⟨rfl, sha1hex8_length filePathStr⟩

/-- C9 counterexample: with `regex=True`, the `case_sensitive` flag changes
the name score — pattern `"ABC"` against candidate `"abc"` scores 0 when
case-sensitive but 0.6 with `case_sensitive=False` (which compiles the
pattern with `re.IGNORECASE`) — so the flag does not control literal-name
matching only. -/
theorem c9_counterexample :
    name_score literalSearch "abc" sigRegexCS = 0 ∧
    name_score literalSearch "abc" sigRegexCI = 3/5 ∧
    score_candidate literalSearch candLowerAbc sigRegexCS = 0 ∧
    score_candidate literalSearch candLowerAbc sigRegexCI = 3/5 ∧
    ((0 : ℚ) ≠ 3/5) := by
  refine ⟨?_, ?_, ?_, ?_, by norm_num⟩ <;>
    simp +decide only [score_candidate, type_matches, name_score, methodsStep, qualifiers,
      decoratorsStep, basesStep, docstringStep, moduleStep, stemStep, literalSearch,
      sigRegexCS, sigRegexCI, candLowerAbc, if_true, if_false, ite_true, ite_false,
      Option.bind] <;> norm_num

/-- C9 (amended): `case_sensitive` affects regex matching as well — for a
regex signature the name score is 0.6 exactly when the search function
(compiled with ignore-case iff `case_sensitive` is false) hits, and 0
otherwise. -/
theorem c9_regex_uses_case_flag (rs : String → String → Bool → Bool)
    (candidate_name : String) (s : Signature) (h : s.regex = true) :
    name_score rs candidate_name s =
      (if rs s.name candidate_name (!s.case_sensitive) then 3/5 else 0) := by
  simp [name_score, h]

/-- Witness for the amended C9 statement at a concrete regex signature. -/
theorem c9_witness :
    sigRegexCI.regex = true ∧
    name_score literalSearch "abc" sigRegexCI =
      (if literalSearch sigRegexCI.name "abc" (!sigRegexCI.case_sensitive) then 3/5
       else 0) :=
  ⟨rfl, c9_regex_uses_case_flag literalSearch "abc" sigRegexCI rfl⟩

/-- C10: function and async-function candidates always carry an empty
methods tuple, and any candidate with an empty methods tuple scores 0
against any signature whose `methods` field is non-empty (the coverage
ratio is 0 < 1/2), whatever the signature's type field — so such a
signature can never match a function candidate. -/
theorem c10_methods_disqualify_functions :
    (∀ (hasUnp : Bool) (mn : String) (fp : List String) (nm : String) (ln : Nat)
        (decos : List PyExpr) (doc : Option String) (c : Candidate),
        candidateOfStmt hasUnp mn fp (PyStmt.functionDef nm ln decos doc) = some c →
        c.methods = []) ∧
    (∀ (hasUnp : Bool) (mn : String) (fp : List String) (nm : String) (ln : Nat)
        (decos : List PyExpr) (doc : Option String) (c : Candidate),
        candidateOfStmt hasUnp mn fp (PyStmt.asyncFunctionDef nm ln decos doc) = some c →
        c.methods = []) ∧
    (∀ (rs : String → String → Bool → Bool) (c : Candidate) (s : Signature),
        s.methods ≠ [] → c.methods = [] → score_candidate rs c s = 0) := by
  refine ⟨?_, ?_, ?_⟩
  · intro _ _ _ _ _ _ _ c h
    cases h
    rfl
  · intro _ _ _ _ _ _ _ c h
    cases h
    rfl
  · intro rs c s hs hc
    have hstep : methodsStep c s (name_score rs c.name s) = none := by
      have hcount : s.methods.countP (fun m => c.methods.contains m) = 0 := by
        simp [hc, List.countP_eq_zero]
      have hlen : 0 < s.methods.length := List.length_pos.mpr hs
      simp only [methodsStep, hs, if_false, hcount, ite_false]
      have hne : (0 : Nat) ≠ s.methods.length := by omega
      simp [hne, hlen]
    simp [score_candidate, hstep]

/-- Witness for C10 at a concrete top-level function and method signature. -/
theorem c10_witness :
    candidateOfStmt true "m" ["m.py"] stmtRunFn = some candRunFn ∧
    sigRunWithMethods.methods ≠ [] ∧ candRunFn.methods = [] ∧
    score_candidate literalSearch candRunFn sigRunWithMethods = 0 :=
  ⟨rfl, by decide, rfl,
    c10_methods_disqualify_functions.2.2 literalSearch candRunFn sigRunWithMethods
      (by decide) rfl⟩
